import Mathlib

/-!
TinyOS serial frame decoder (`driver/keti/tosserial.go`)

A shallow embedding of the HDLC-style frame decoder `TOSSerialClient` and a
verification of its specification against it.

Modelling conventions

* A Go `byte` is a natural number below 256; a `[]byte` is a `List Nat`.
  No operation of the decoder takes a byte out of that range, and the
  theorems below hold for every list of naturals, in particular for every
  byte sequence.
* `uint32` arithmetic is arithmetic on `Nat` with an explicit `% 2 ^ 32`;
  8-bit arithmetic carries an explicit `% 2 ^ 8`.
* A Go run-time panic (slice bounds out of range, index out of range) is the
  `Except.error` result; a panic is not recovered anywhere in the package, so
  it ends the call to `DataReceived`.
* The channel `Packets` is the ordered list of the payloads sent on it, and
  the standard output is the ordered list of the `Wrong CRC` lines printed.
-/

namespace TOSSerial

/-- The two run-time panics the decoder's slicing and indexing can raise. -/
inductive Fault where
  | sliceBounds
  | indexRange
  deriving DecidableEq, Repr

/-- One `Wrong CRC: %x != %x %v` line: the computed checksum, the checksum
read from the trailer and the whole unescaped frame. -/
structure WrongCRC where
  crc : Nat
  packet_crc : Nat
  packet : List Nat
  deriving DecidableEq, Repr

deriving instance DecidableEq for Except

/-- The frame delimiter, `HDLC_FLAG_BYTE = 0x7e`. -/
def HDLC_FLAG_BYTE : Nat := 0x7e

/-- The escape marker, `HDLC_CTLESC_BYTE = 0x7d`. -/
def HDLC_CTLESC_BYTE : Nat := 0x7d

/-- The decoder: the accumulation buffer `packet`, the payloads sent on the
channel `Packets` so far, and the lines printed so far. -/
structure TOSSerialClient where
  packet : List Nat
  Packets : List (List Nat)
  printed : List WrongCRC
  deriving DecidableEq, Repr

/-- The constructor `NewTOSSerialClient`: an empty buffer, nothing sent and
nothing printed. -/
def NewTOSSerialClient : TOSSerialClient :=
  { packet := [], Packets := [], printed := [] }

/-- Go's `s[:hi]` for a signed bound `hi`: a panic unless `0 ≤ hi ≤ len(s)`
(the capacity of the slices the decoder cuts is never below the bound it
uses, so the length is the limit that matters). -/
def sliceTo (s : List Nat) (hi : Int) : Except Fault (List Nat) :=
  if 0 ≤ hi ∧ hi ≤ (s.length : Int) then .ok (s.take hi.toNat)
  else .error .sliceBounds

/-- Go's `s[lo:]` for a signed bound `lo`: a panic unless `0 ≤ lo ≤ len(s)`. -/
def sliceFrom (s : List Nat) (lo : Int) : Except Fault (List Nat) :=
  if 0 ≤ lo ∧ lo ≤ (s.length : Int) then .ok (s.drop lo.toNat)
  else .error .sliceBounds

/-- The loop of `unescape`: `ret` is the output so far and `esc` the flag;
the result is the pair of both variables when the loop ends. -/
def unescapeLoop : List Nat → List Nat → Bool → List Nat × Bool
  | [], ret, esc => (ret, esc)
  | b :: rest, ret, esc =>
    if esc then unescapeLoop rest (ret ++ [b ^^^ 0x20]) false
    else if b = HDLC_CTLESC_BYTE then unescapeLoop rest ret true
    else unescapeLoop rest (ret ++ [b]) false

/-- The method `unescape`: one left-to-right pass starting with an empty
output and the flag cleared; it returns `ret`. -/
def unescape (packet : List Nat) : List Nat :=
  (unescapeLoop packet [] false).1

/-- The value of the flag `esc` when the loop of `unescape` ends on `packet`:
true when the buffer stops right after an escape marker that is still
waiting for its byte. -/
def pendingEscape (packet : List Nat) : Bool :=
  (unescapeLoop packet [] false).2

/-- The loop of `decode`, `for i := len(v) - 1; i != 0; i--`, entered with a
non-negative `i`: it reads `v[i]`, `v[i-1]`, ..., `v[1]`. -/
def decodeLoop (v : List Nat) : Nat → Nat → Except Fault Nat
  | 0, r => .ok r
  | i + 1, r =>
    match v[i + 1]? with
    | some x => decodeLoop v i (((r <<< 8) % 2 ^ 32 + x) % 2 ^ 32)
    | none => .error .indexRange

/-- The method `decode`. On an empty slice the counter starts at `-1`, which
is not `0`, and `v[-1]` panics. -/
def decode (v : List Nat) : Except Fault Nat :=
  if v.length = 0 then .error .indexRange
  else decodeLoop v (v.length - 1) 0

/-- One round of the inner loop of `crc16`. -/
def crcRound (crc : Nat) : Nat :=
  (if crc &&& 0x8000 = 0x8000 then ((crc <<< 1) % 2 ^ 32) ^^^ 0x1021
   else (crc <<< 1) % 2 ^ 32) &&& 0xffff

/-- The body of the outer loop of `crc16` for one byte `b`. The shift `b<<8`
is evaluated in the 8-bit type of `b` and then widened by `uint32(...)`. -/
def crcByte (crc b : Nat) : Nat :=
  crcRound^[8] (crc ^^^ ((b <<< 8) % 2 ^ 8))

/-- The method `crc16`. -/
def crc16 (base_crc : Nat) (frame_data : List Nat) : Nat :=
  frame_data.foldl crcByte base_crc

/-- The method `deliver`. -/
def deliver (tos : TOSSerialClient) : Except Fault TOSSerialClient := do
  let packet := unescape tos.packet
  let tos := { tos with packet := [] }
  let crc := crc16 0 (← sliceTo packet ((packet.length : Int) - 2))
  let packet_crc ← decode (← sliceFrom packet ((packet.length : Int) - 2))
  let tos :=
    if crc ≠ packet_crc then
      { tos with printed := tos.printed ++ [⟨crc, packet_crc, packet⟩] }
    else tos
  if packet.length > 0 then
    let payload ← sliceTo packet ((packet.length : Int) - 2)
    pure { tos with Packets := tos.Packets ++ [payload] }
  else pure tos

/-- The method `DataReceived`. -/
def DataReceived (tos : TOSSerialClient) : List Nat → Except Fault TOSSerialClient
  | [] => .ok tos
  | d :: rest =>
    if d = HDLC_FLAG_BYTE then
      match deliver tos with
      | .ok tos1 => DataReceived tos1 rest
      | .error e => .error e
    else DataReceived { tos with packet := tos.packet ++ [d] } rest

/-! ### Reference definitions, written from the specification -/

/-- The encoder of the escaping round trip, as the specification words it:
each byte equal to the sentinel or to the escape marker becomes the pair
`ESCAPE_MARKER, byte XOR 0x20`, every other byte stays as it is. -/
def enc : List Nat → List Nat
  | [] => []
  | b :: rest =>
    if b = 0x7E ∨ b = 0x7D then 0x7D :: (b ^^^ 0x20) :: enc rest
    else b :: enc rest

/-- One round of the reference CRC, as the specification words it: if bit 15
is set, shift left and XOR the polynomial, else shift left; mask to 16 bits. -/
def crcRefRound (acc : Nat) : Nat :=
  if acc.testBit 15 then ((acc <<< 1) ^^^ 0x1021) % 2 ^ 16
  else (acc <<< 1) % 2 ^ 16

/-- The reference CRC for one byte: XOR the byte into the high byte of the
16-bit accumulator, then eight rounds. -/
def crcRefByte (acc b : Nat) : Nat :=
  crcRefRound^[8] (acc ^^^ (b * 256))

/-- The reference bit-at-a-time CRC-16/CCITT with initial value 0 and
polynomial 0x1021. -/
def crc16Ref (data : List Nat) : Nat :=
  data.foldl crcRefByte 0

/-- A sequence of `DataReceived` calls, one per chunk, on the same decoder;
a panic in one call ends the sequence. -/
def feedChunks (tos : TOSSerialClient) : List (List Nat) → Except Fault TOSSerialClient
  | [] => .ok tos
  | chunk :: more =>
    match DataReceived tos chunk with
    | .ok tos1 => feedChunks tos1 more
    | .error e => .error e

/-- The sentinel-terminated segments of a stream and the bytes after its last
sentinel, for a decoder that already holds `cur` in its buffer: a segment is
what lies between two consecutive 0x7E bytes, or before the first one. -/
def segmentsAux : List Nat → List Nat → List (List Nat) × List Nat
  | [], cur => ([], cur)
  | d :: rest, cur =>
    if d = 0x7E then (cur :: (segmentsAux rest []).1, (segmentsAux rest []).2)
    else segmentsAux rest (cur ++ [d])

/-- The sentinel-terminated segments of a stream given to a fresh decoder. -/
def segments (stream : List Nat) : List (List Nat) :=
  (segmentsAux stream []).1

/-- The bytes of a stream after its last sentinel. -/
def remainder (stream : List Nat) : List Nat :=
  (segmentsAux stream []).2

/-- The payload cut from a segment: its unescaped form without the last two
bytes, `packet[:len(packet)-2]`. -/
def payloadOf (segment : List Nat) : List Nat :=
  (unescape segment).take ((unescape segment).length - 2)

/-! ### Lemmas on the loops -/

theorem unescapeLoop_cons (b : Nat) (rest ret : List Nat) (esc : Bool) :
    unescapeLoop (b :: rest) ret esc
      = if esc then unescapeLoop rest (ret ++ [b ^^^ 0x20]) false
        else if b = HDLC_CTLESC_BYTE then unescapeLoop rest ret true
        else unescapeLoop rest (ret ++ [b]) false := by
  rw [unescapeLoop]

theorem DataReceived_cons (tos : TOSSerialClient) (d : Nat) (rest : List Nat) :
    DataReceived tos (d :: rest)
      = if d = HDLC_FLAG_BYTE then
          (match deliver tos with
           | .ok tos1 => DataReceived tos1 rest
           | .error e => .error e)
        else DataReceived { tos with packet := tos.packet ++ [d] } rest := by
  rw [DataReceived]

theorem unescapeLoop_acc (s ret : List Nat) (esc : Bool) :
    unescapeLoop s ret esc
      = (ret ++ (unescapeLoop s [] esc).1, (unescapeLoop s [] esc).2) := by
  induction s generalizing ret esc with
  | nil => simp [unescapeLoop]
  | cons b rest ih =>
    unfold unescapeLoop
    split
    · rw [ih (ret ++ [b ^^^ 0x20]), ih ([] ++ [b ^^^ 0x20])]
      simp
    · split
      · exact ih ret true
      · rw [ih (ret ++ [b]), ih ([] ++ [b])]
        simp

theorem unescapeLoop_append (a b ret : List Nat) (esc : Bool) :
    unescapeLoop (a ++ b) ret esc
      = unescapeLoop b (unescapeLoop a ret esc).1 (unescapeLoop a ret esc).2 := by
  induction a generalizing ret esc with
  | nil => simp [unescapeLoop]
  | cons x rest ih =>
    simp only [List.cons_append, unescapeLoop_cons]
    split
    · exact ih _ _
    · split
      · exact ih _ _
      · exact ih _ _

theorem unescape_append (a b : List Nat) (h : pendingEscape a = false) :
    unescape (a ++ b) = unescape a ++ unescape b := by
  unfold pendingEscape at h
  unfold unescape
  rw [unescapeLoop_append, h, unescapeLoop_acc b]

theorem pendingEscape_append (a b : List Nat) (h : pendingEscape a = false) :
    pendingEscape (a ++ b) = pendingEscape b := by
  unfold pendingEscape at h ⊢
  rw [unescapeLoop_append, h, unescapeLoop_acc b]

theorem unescapeLoop_plain (s ret : List Nat) (h : 0x7D ∉ s) :
    unescapeLoop s ret false = (ret ++ s, false) := by
  induction s generalizing ret with
  | nil => simp [unescapeLoop]
  | cons b rest ih =>
    have hb : b ≠ HDLC_CTLESC_BYTE := by
      intro hb
      exact h (by simp [hb, HDLC_CTLESC_BYTE])
    have hr : 0x7D ∉ rest := fun hr => h (List.mem_cons_of_mem _ hr)
    unfold unescapeLoop
    simp [hb, ih _ hr]

theorem unescape_plain (s : List Nat) (h : 0x7D ∉ s) : unescape s = s := by
  simp [unescape, unescapeLoop_plain s [] h]

theorem DataReceived_plain (tos : TOSSerialClient) (s : List Nat) (h : 0x7E ∉ s) :
    DataReceived tos s = .ok { tos with packet := tos.packet ++ s } := by
  induction s generalizing tos with
  | nil => simp [DataReceived]
  | cons d rest ih =>
    have hd : d ≠ HDLC_FLAG_BYTE := by
      intro hd
      exact h (by simp [hd, HDLC_FLAG_BYTE])
    have hr : 0x7E ∉ rest := fun hr => h (List.mem_cons_of_mem _ hr)
    unfold DataReceived
    simp [hd, ih _ hr]

theorem DataReceived_append (tos : TOSSerialClient) (a b : List Nat) :
    DataReceived tos (a ++ b)
      = (match DataReceived tos a with
         | .ok tos1 => DataReceived tos1 b
         | .error e => .error e) := by
  induction a generalizing tos with
  | nil => simp [DataReceived]
  | cons d rest ih =>
    simp only [List.cons_append, DataReceived_cons]
    split
    · cases hdl : deliver tos with
      | ok t => simp [ih]
      | error e => simp
    · exact ih _

theorem DataReceived_sentinel (tos : TOSSerialClient) :
    DataReceived tos [0x7E] = deliver tos := by
  unfold DataReceived
  simp only [HDLC_FLAG_BYTE, if_true]
  cases deliver tos <;> simp [DataReceived]

theorem decode_pair (a b : Nat) : decode [a, b] = .ok (b % 2 ^ 32) := by
  simp [decode, decodeLoop]

theorem deliver_short (tos : TOSSerialClient) (h : (unescape tos.packet).length < 2) :
    deliver tos = .error .sliceBounds := by
  have h2 : ¬ (0 ≤ ((unescape tos.packet).length : Int) - 2
      ∧ ((unescape tos.packet).length : Int) - 2 ≤ ((unescape tos.packet).length : Int)) := by
    omega
  simp only [deliver, sliceTo, if_neg h2]
  rfl

theorem toNat_len_sub_two (n : Nat) : ((n : Int) - 2).toNat = n - 2 := by
  omega

theorem drop_len_sub_two (l : List Nat) (h : 2 ≤ l.length) :
    ∃ a b, l.drop (l.length - 2) = [a, b] := by
  have hl : (l.drop (l.length - 2)).length = 2 := by
    rw [List.length_drop]; omega
  match hd : l.drop (l.length - 2), hl with
  | [a, b], _ => exact ⟨a, b, rfl⟩

theorem deliver_long (tos : TOSSerialClient) (h : 2 ≤ (unescape tos.packet).length) :
    ∃ pc, decode ((unescape tos.packet).drop ((unescape tos.packet).length - 2)) = .ok pc
      ∧ deliver tos = .ok
          { packet := []
            Packets := tos.Packets
              ++ [(unescape tos.packet).take ((unescape tos.packet).length - 2)]
            printed := tos.printed
              ++ (if crc16 0 ((unescape tos.packet).take ((unescape tos.packet).length - 2))
                    = pc then []
                  else [⟨crc16 0 ((unescape tos.packet).take
                          ((unescape tos.packet).length - 2)), pc, unescape tos.packet⟩]) } := by
  obtain ⟨a, b, hab⟩ := drop_len_sub_two _ h
  refine ⟨b % 2 ^ 32, by rw [hab, decode_pair], ?_⟩
  have h2 : 0 ≤ ((unescape tos.packet).length : Int) - 2
      ∧ ((unescape tos.packet).length : Int) - 2 ≤ ((unescape tos.packet).length : Int) := by
    omega
  have hpos : (unescape tos.packet).length > 0 := by omega
  simp only [deliver, sliceTo, sliceFrom, if_pos h2, toNat_len_sub_two, hab, bind, Except.bind,
    decode_pair, pure, Except.pure, if_pos hpos]
  by_cases hc : crc16 0 ((unescape tos.packet).take ((unescape tos.packet).length - 2))
      = b % 4294967296
  · simp [hc]
  · simp [hc]

theorem unescapeLoop_enc (p ret : List Nat) :
    unescapeLoop (enc p) ret false = (ret ++ p, false) := by
  induction p generalizing ret with
  | nil => simp [enc, unescapeLoop]
  | cons b rest ih =>
    by_cases hb : b = 0x7E ∨ b = 0x7D
    · rw [enc, if_pos hb]
      simp only [unescapeLoop_cons, HDLC_CTLESC_BYTE, Bool.false_eq_true, if_false, if_true]
      rw [ih]
      rcases hb with hb | hb <;> subst hb <;> simp
    · rw [enc, if_neg hb, unescapeLoop_cons]
      have hb2 : b ≠ HDLC_CTLESC_BYTE := fun h => hb (Or.inr h)
      simp [hb2, ih]

/-! ### The claims -/

/-- C1: for every byte sequence `s` of length at least 2 that contains
neither 0x7E nor 0x7D, feeding `s` followed by one 0x7E to a fresh decoder
completes, puts exactly one payload on `Packets`, namely `s` without its last
two bytes, and leaves the accumulation buffer empty. -/
theorem feed_plain_then_sentinel (s : List Nat) (hlen : 2 ≤ s.length)
    (hflag : 0x7E ∉ s) (hesc : 0x7D ∉ s) :
    ∃ t, DataReceived NewTOSSerialClient (s ++ [0x7E]) = .ok t
      ∧ t.Packets = [s.take (s.length - 2)] ∧ t.packet = [] := by
  have hu : unescape s = s := unescape_plain s hesc
  obtain ⟨pc, _, hd⟩ := deliver_long ⟨s, [], []⟩ (by simpa [hu] using hlen)
  have hrun : DataReceived NewTOSSerialClient (s ++ [0x7E]) = deliver ⟨s, [], []⟩ := by
    rw [DataReceived_append, DataReceived_plain _ _ hflag]
    simp only [NewTOSSerialClient, List.nil_append]
    rw [DataReceived_sentinel]
  rw [hrun, hd]
  exact ⟨_, rfl, by simp [hu], rfl⟩

/-- Witness of C1 on the four bytes 41 42 C3 4B. -/
theorem feed_plain_then_sentinel_witness :
    2 ≤ [0x41, 0x42, 0xC3, 0x4B].length ∧ 0x7E ∉ [0x41, 0x42, 0xC3, 0x4B]
      ∧ 0x7D ∉ [0x41, 0x42, 0xC3, 0x4B]
      ∧ ∃ t, DataReceived NewTOSSerialClient ([0x41, 0x42, 0xC3, 0x4B] ++ [0x7E]) = .ok t
          ∧ t.Packets = [[0x41, 0x42, 0xC3, 0x4B].take ([0x41, 0x42, 0xC3, 0x4B].length - 2)]
          ∧ t.packet = [] :=
  ⟨by decide, by decide, by decide,
    feed_plain_then_sentinel [0x41, 0x42, 0xC3, 0x4B] (by decide) (by decide) (by decide)⟩

/-- C2: escaping round trip. Encoding a payload with `enc` (each 0x7E or 0x7D
becomes 0x7D followed by the byte XOR 0x20, every other byte is kept) and
decoding it with `unescape` gives the payload back, for every byte sequence. -/
theorem unescape_enc (p : List Nat) : unescape (enc p) = p := by
  simp [unescape, unescapeLoop_enc]

/-- C3, evaluated at the single byte 0x41: `crc16` returns 0 where the
reference bit-at-a-time CRC-16/CCITT of the claim gives 0x58E5. -/
theorem crc16_differs_from_reference :
    crc16 0 [0x41] = 0 ∧ crc16Ref [0x41] = 0x58E5 ∧ crc16 0 [0x41] ≠ crc16Ref [0x41] := by
  decide

/-- C4, evaluated at the chunk made of one sentinel given to a fresh decoder:
`DataReceived` ends in the slice-bounds panic of `deliver`. -/
theorem DataReceived_fresh_sentinel_panics :
    DataReceived NewTOSSerialClient [0x7E] = .error .sliceBounds := by
  decide

/-- C5, evaluated at the empty buffer (two adjacent sentinels) and at a
one-byte buffer: `deliver` ends in the slice-bounds panic instead of
discarding the frame silently. -/
theorem deliver_undersized_panics :
    deliver ⟨[], [], []⟩ = .error .sliceBounds
      ∧ deliver ⟨[0x41], [], []⟩ = .error .sliceBounds
      ∧ DataReceived ⟨[], [[0x41, 0x42]], []⟩ [0x7E] = .error .sliceBounds := by
  decide

/-- C6 fails as stated: on the two-byte buffer C3 4B, whose unescaped form is
the trailer alone, `deliver` sends one payload, the empty one, on `Packets`. -/
theorem trailer_only_frame_is_emitted :
    (unescape [0xC3, 0x4B]).length = 2
      ∧ deliver ⟨[0xC3, 0x4B], [], []⟩ = .ok ⟨[], [[]], [⟨0, 0x4B, [0xC3, 0x4B]⟩]⟩ := by
  decide

/-- C6 as amended: for every accumulated buffer whose unescaped form has
exactly 2 bytes, `deliver` completes, sends exactly one payload on `Packets`,
the empty byte sequence, whatever the two trailer bytes are, and leaves the
accumulation buffer empty. -/
theorem deliver_trailer_only (tos : TOSSerialClient)
    (h : (unescape tos.packet).length = 2) :
    ∃ t, deliver tos = .ok t ∧ t.Packets = tos.Packets ++ [[]] ∧ t.packet = [] := by
  obtain ⟨pc, _, hd⟩ := deliver_long tos (by omega)
  rw [hd]
  exact ⟨_, rfl, by simp [h], rfl⟩

/-- Witness of the amended C6 on the buffer C3 4B. -/
theorem deliver_trailer_only_witness :
    (unescape (TOSSerialClient.mk [0xC3, 0x4B] [] []).packet).length = 2
      ∧ ∃ t, deliver ⟨[0xC3, 0x4B], [], []⟩ = .ok t
          ∧ t.Packets = (TOSSerialClient.mk [0xC3, 0x4B] [] []).Packets ++ [[]]
          ∧ t.packet = [] :=
  ⟨by decide, deliver_trailer_only ⟨[0xC3, 0x4B], [], []⟩ (by decide)⟩

/-- C7: a checksum mismatch never suppresses delivery. For every buffer whose
unescaped form has at least 3 bytes, `decode` of the trailer returns a value
`pc`, `deliver` completes and sends exactly one payload (the frame without
its last two bytes) whether or not `crc16 0 payload` equals `pc`, and it
prints exactly one `Wrong CRC` line when the two values differ and none when
they are equal. -/
theorem deliver_emits_despite_mismatch (tos : TOSSerialClient)
    (h : 3 ≤ (unescape tos.packet).length) :
    ∃ pc t,
      decode ((unescape tos.packet).drop ((unescape tos.packet).length - 2)) = .ok pc
      ∧ deliver tos = .ok t
      ∧ t.Packets = tos.Packets
          ++ [(unescape tos.packet).take ((unescape tos.packet).length - 2)]
      ∧ (crc16 0 ((unescape tos.packet).take ((unescape tos.packet).length - 2)) ≠ pc →
          t.printed = tos.printed
            ++ [⟨crc16 0 ((unescape tos.packet).take ((unescape tos.packet).length - 2)),
                 pc, unescape tos.packet⟩])
      ∧ (crc16 0 ((unescape tos.packet).take ((unescape tos.packet).length - 2)) = pc →
          t.printed = tos.printed) := by
  obtain ⟨pc, hpc, hd⟩ := deliver_long tos (by omega)
  refine ⟨pc, _, hpc, hd, rfl, ?_, ?_⟩
  · intro hne
    simp [hne]
  · intro heq
    simp [heq]

/-- Witness of C7 on the buffer 41 42 C3 4B. -/
theorem deliver_emits_despite_mismatch_witness :
    3 ≤ (unescape (TOSSerialClient.mk [0x41, 0x42, 0xC3, 0x4B] [] []).packet).length
      ∧ ∃ pc t,
          decode ((unescape [0x41, 0x42, 0xC3, 0x4B]).drop
            ((unescape [0x41, 0x42, 0xC3, 0x4B]).length - 2)) = .ok pc
          ∧ deliver ⟨[0x41, 0x42, 0xC3, 0x4B], [], []⟩ = .ok t
          ∧ t.Packets = [] ++ [(unescape [0x41, 0x42, 0xC3, 0x4B]).take
              ((unescape [0x41, 0x42, 0xC3, 0x4B]).length - 2)]
          ∧ (crc16 0 ((unescape [0x41, 0x42, 0xC3, 0x4B]).take
                ((unescape [0x41, 0x42, 0xC3, 0x4B]).length - 2)) ≠ pc →
              t.printed = [] ++ [⟨crc16 0 ((unescape [0x41, 0x42, 0xC3, 0x4B]).take
                ((unescape [0x41, 0x42, 0xC3, 0x4B]).length - 2)), pc,
                unescape [0x41, 0x42, 0xC3, 0x4B]⟩])
          ∧ (crc16 0 ((unescape [0x41, 0x42, 0xC3, 0x4B]).take
                ((unescape [0x41, 0x42, 0xC3, 0x4B]).length - 2)) = pc →
              t.printed = []) :=
  ⟨by decide, deliver_emits_despite_mismatch ⟨[0x41, 0x42, 0xC3, 0x4B], [], []⟩ (by decide)⟩

/-- C8: for every 2-byte trailer `[a, b]`, `decode` returns the value of `b`
alone; the first byte never influences the result. -/
theorem decode_reads_second_byte_only (a a' b : Nat) (hb : b < 256) :
    decode [a, b] = .ok b ∧ decode [a', b] = decode [a, b] := by
  have hmod : b % 2 ^ 32 = b := Nat.mod_eq_of_lt (by omega)
  rw [decode_pair, decode_pair, hmod]
  exact ⟨rfl, rfl⟩

/-- Witness of C8 on the trailers C3 4B and 00 4B. -/
theorem decode_reads_second_byte_only_witness :
    0x4B < 256 ∧ decode [0xC3, 0x4B] = .ok 0x4B ∧ decode [0x00, 0x4B] = decode [0xC3, 0x4B] :=
  ⟨by decide, decode_reads_second_byte_only 0xC3 0x00 0x4B (by decide)⟩

/-- C9, evaluated at the six bytes 7E 41 42 C3 4B 7E given to a fresh decoder:
the call ends in the slice-bounds panic raised by the leading sentinel, so
nothing is sent. Without the leading sentinel the same frame is sent as the
payload 41 42 with one `Wrong CRC` line (0 against 4B). -/
theorem DataReceived_scenario_panics :
    DataReceived NewTOSSerialClient [0x7E, 0x41, 0x42, 0xC3, 0x4B, 0x7E] = .error .sliceBounds
      ∧ DataReceived NewTOSSerialClient [0x41, 0x42, 0xC3, 0x4B, 0x7E]
          = .ok ⟨[], [[0x41, 0x42]], [⟨0, 0x4B, [0x41, 0x42, 0xC3, 0x4B]⟩]⟩ := by
  decide

/-- C10 fails as stated: with `pre` and `post` both empty the stream is
7D 5E 7E, the frame handled by `deliver` is the single byte 7E, and the call
ends in the slice-bounds panic; no payload is sent. -/
theorem DataReceived_escaped_sentinel_alone_panics :
    pendingEscape [] = false
      ∧ unescape ([] ++ [0x7D, 0x5E] ++ []) = [0x7E]
      ∧ DataReceived NewTOSSerialClient ([] ++ [0x7D, 0x5E] ++ [] ++ [0x7E])
          = .error .sliceBounds := by
  decide

/-- C10 as amended: for all sentinel-free `pre` and `post`, with `pre` not
ending in a pending escape marker, feeding `pre ++ [0x7D, 0x5E] ++ post` to a
fresh decoder only fills the buffer (nothing is delivered), the final 0x7E
runs `deliver` once on that buffer, and its unescaped frame is
`unescape pre ++ [0x7E] ++ unescape post`; when that frame has at least 2
bytes, exactly one payload is sent, the frame without its last two bytes, and
the buffer is left empty. -/
theorem escaped_sentinel_stays_in_frame (pre post : List Nat)
    (hpre : 0x7E ∉ pre) (hpost : 0x7E ∉ post) (hesc : pendingEscape pre = false) :
    DataReceived NewTOSSerialClient (pre ++ [0x7D, 0x5E] ++ post)
        = .ok ⟨pre ++ [0x7D, 0x5E] ++ post, [], []⟩
      ∧ DataReceived NewTOSSerialClient (pre ++ [0x7D, 0x5E] ++ post ++ [0x7E])
        = deliver ⟨pre ++ [0x7D, 0x5E] ++ post, [], []⟩
      ∧ unescape (pre ++ [0x7D, 0x5E] ++ post) = unescape pre ++ [0x7E] ++ unescape post
      ∧ (2 ≤ (unescape pre ++ [0x7E] ++ unescape post).length →
          ∃ t, DataReceived NewTOSSerialClient (pre ++ [0x7D, 0x5E] ++ post ++ [0x7E]) = .ok t
            ∧ t.Packets = [(unescape pre ++ [0x7E] ++ unescape post).take
                ((unescape pre ++ [0x7E] ++ unescape post).length - 2)]
            ∧ t.packet = []) := by
  have hmem : 0x7E ∉ pre ++ [0x7D, 0x5E] ++ post := by
    simp [List.mem_append, hpre, hpost]
  have hfill : DataReceived NewTOSSerialClient (pre ++ [0x7D, 0x5E] ++ post)
      = .ok ⟨pre ++ [0x7D, 0x5E] ++ post, [], []⟩ := by
    rw [DataReceived_plain _ _ hmem]
    simp [NewTOSSerialClient]
  have hrun : DataReceived NewTOSSerialClient (pre ++ [0x7D, 0x5E] ++ post ++ [0x7E])
      = deliver ⟨pre ++ [0x7D, 0x5E] ++ post, [], []⟩ := by
    rw [DataReceived_append, hfill]
    exact DataReceived_sentinel _
  have hpair : pendingEscape [0x7D, 0x5E] = false := by decide
  have hun : unescape (pre ++ [0x7D, 0x5E] ++ post)
      = unescape pre ++ [0x7E] ++ unescape post := by
    rw [List.append_assoc, unescape_append pre _ hesc, unescape_append _ post hpair,
      ← List.append_assoc]
    rfl
  refine ⟨hfill, hrun, hun, ?_⟩
  intro hlen
  obtain ⟨pc, _, hd⟩ := deliver_long ⟨pre ++ [0x7D, 0x5E] ++ post, [], []⟩
    (by rw [hun]; exact hlen)
  rw [hrun, hd]
  refine ⟨_, rfl, ?_, rfl⟩
  show [] ++ [(unescape (pre ++ [0x7D, 0x5E] ++ post)).take
      ((unescape (pre ++ [0x7D, 0x5E] ++ post)).length - 2)] = _
  rw [hun, List.nil_append]

/-- Witness of the amended C10 with `pre` = 41 and `post` = 42 C3 4B. -/
theorem escaped_sentinel_stays_in_frame_witness :
    0x7E ∉ [0x41] ∧ 0x7E ∉ [0x42, 0xC3, 0x4B] ∧ pendingEscape [0x41] = false
      ∧ DataReceived NewTOSSerialClient ([0x41] ++ [0x7D, 0x5E] ++ [0x42, 0xC3, 0x4B])
          = .ok ⟨[0x41] ++ [0x7D, 0x5E] ++ [0x42, 0xC3, 0x4B], [], []⟩
      ∧ DataReceived NewTOSSerialClient ([0x41] ++ [0x7D, 0x5E] ++ [0x42, 0xC3, 0x4B] ++ [0x7E])
          = deliver ⟨[0x41] ++ [0x7D, 0x5E] ++ [0x42, 0xC3, 0x4B], [], []⟩
      ∧ unescape ([0x41] ++ [0x7D, 0x5E] ++ [0x42, 0xC3, 0x4B])
          = unescape [0x41] ++ [0x7E] ++ unescape [0x42, 0xC3, 0x4B]
      ∧ (2 ≤ (unescape [0x41] ++ [0x7E] ++ unescape [0x42, 0xC3, 0x4B]).length →
          ∃ t, DataReceived NewTOSSerialClient
                ([0x41] ++ [0x7D, 0x5E] ++ [0x42, 0xC3, 0x4B] ++ [0x7E]) = .ok t
            ∧ t.Packets = [(unescape [0x41] ++ [0x7E] ++ unescape [0x42, 0xC3, 0x4B]).take
                ((unescape [0x41] ++ [0x7E] ++ unescape [0x42, 0xC3, 0x4B]).length - 2)]
            ∧ t.packet = []) :=
  ⟨by decide, by decide, by decide,
    escaped_sentinel_stays_in_frame [0x41] [0x42, 0xC3, 0x4B] (by decide) (by decide)
      (by decide)⟩

/-! ### Further lemmas on `deliver` and `DataReceived` -/

theorem deliver_ok_iff (tos : TOSSerialClient) :
    (∃ t, deliver tos = .ok t) ↔ 2 ≤ (unescape tos.packet).length := by
  constructor
  · rintro ⟨t, ht⟩
    by_contra hlt
    rw [deliver_short tos (by omega)] at ht
    cases ht
  · intro h
    obtain ⟨pc, _, hd⟩ := deliver_long tos h
    exact ⟨_, hd⟩

theorem deliver_ok_state (tos t : TOSSerialClient) (h : deliver tos = .ok t) :
    t.packet = [] ∧ t.Packets = tos.Packets ++ [payloadOf tos.packet] := by
  have hlen : 2 ≤ (unescape tos.packet).length := (deliver_ok_iff tos).1 ⟨t, h⟩
  obtain ⟨pc, _, hd⟩ := deliver_long tos hlen
  rw [hd] at h
  cases h
  exact ⟨rfl, rfl⟩

theorem unescape_trailing_marker (b : List Nat) (h : pendingEscape b = false) :
    unescape (b ++ [0x7D]) = unescape b := by
  rw [unescape_append b _ h]
  simp [unescape, unescapeLoop, HDLC_CTLESC_BYTE]

theorem unescape_escaped_byte (buf rest : List Nat) (b : Nat)
    (h : pendingEscape buf = false) :
    unescape (buf ++ [0x7D, b] ++ rest) = unescape buf ++ [b ^^^ 0x20] ++ unescape rest := by
  have hpair : pendingEscape [0x7D, b] = false := by
    simp [pendingEscape, unescapeLoop, HDLC_CTLESC_BYTE]
  have hval : unescape [0x7D, b] = [b ^^^ 0x20] := by
    simp [unescape, unescapeLoop, HDLC_CTLESC_BYTE]
  rw [List.append_assoc, unescape_append buf _ h, unescape_append _ rest hpair, hval,
    ← List.append_assoc]

theorem DataReceived_keeps_buffer_clean (s : List Nat) (tos t : TOSSerialClient)
    (hclean : 0x7E ∉ tos.packet) (h : DataReceived tos s = .ok t) : 0x7E ∉ t.packet := by
  induction s generalizing tos with
  | nil =>
    simp only [DataReceived, Except.ok.injEq] at h
    exact h ▸ hclean
  | cons d rest ih =>
    rw [DataReceived_cons] at h
    by_cases hd : d = HDLC_FLAG_BYTE
    · rw [if_pos hd] at h
      cases hdl : deliver tos with
      | error e => rw [hdl] at h; cases h
      | ok t1 =>
        rw [hdl] at h
        refine ih t1 ?_ h
        rw [(deliver_ok_state tos t1 hdl).1]
        simp
    · rw [if_neg hd] at h
      refine ih _ ?_ h
      have hd2 : ¬ (0x7E = d) := fun h2 => hd (by rw [← h2]; rfl)
      simp [List.mem_append, hclean, hd2]

theorem feedChunks_eq_DataReceived (tos : TOSSerialClient) (chunks : List (List Nat)) :
    feedChunks tos chunks = DataReceived tos chunks.flatten := by
  induction chunks generalizing tos with
  | nil => simp [feedChunks, DataReceived]
  | cons c more ih =>
    rw [feedChunks, List.flatten_cons, DataReceived_append]
    cases DataReceived tos c with
    | ok t => exact ih t
    | error e => rfl

theorem DataReceived_ends_with_sentinel (tos t : TOSSerialClient) (s : List Nat)
    (h : DataReceived tos (s ++ [0x7E]) = .ok t) : t.packet = [] := by
  rw [DataReceived_append] at h
  cases hs : DataReceived tos s with
  | error e => rw [hs] at h; cases h
  | ok t1 =>
    rw [hs] at h
    simp only [] at h
    rw [DataReceived_sentinel] at h
    exact (deliver_ok_state t1 t h).1

theorem segmentsAux_cons (d : Nat) (rest cur : List Nat) :
    segmentsAux (d :: rest) cur
      = if d = 0x7E then (cur :: (segmentsAux rest []).1, (segmentsAux rest []).2)
        else segmentsAux rest (cur ++ [d]) := by
  rw [segmentsAux]

theorem DataReceived_of_segments (stream : List Nat) (tos : TOSSerialClient)
    (h : ∀ s ∈ (segmentsAux stream tos.packet).1, 2 ≤ (unescape s).length) :
    ∃ t, DataReceived tos stream = .ok t
      ∧ t.packet = (segmentsAux stream tos.packet).2
      ∧ t.Packets = tos.Packets ++ (segmentsAux stream tos.packet).1.map payloadOf := by
  induction stream generalizing tos with
  | nil => exact ⟨tos, rfl, rfl, by simp [segmentsAux]⟩
  | cons d rest ih =>
    rw [DataReceived_cons]
    rw [segmentsAux_cons] at h ⊢
    by_cases hd : d = 0x7E
    · have hd2 : d = HDLC_FLAG_BYTE := hd
      rw [if_pos hd] at h ⊢
      rw [if_pos hd2]
      have hlen : 2 ≤ (unescape tos.packet).length := h _ (List.mem_cons_self _ _)
      obtain ⟨t1, ht1⟩ := (deliver_ok_iff tos).2 hlen
      obtain ⟨hp, hP⟩ := deliver_ok_state tos t1 ht1
      rw [ht1]
      obtain ⟨t, hrun, hbuf, hout⟩ := ih t1 (by
        rw [hp]
        intro s hs
        exact h s (List.mem_cons_of_mem _ hs))
      refine ⟨t, hrun, ?_, ?_⟩
      · rw [hbuf, hp]
      · rw [hout, hP, hp]
        simp
    · have hd2 : ¬ d = HDLC_FLAG_BYTE := hd
      rw [if_neg hd] at h ⊢
      rw [if_neg hd2]
      exact ih { tos with packet := tos.packet ++ [d] } h

theorem segments_of_DataReceived (stream : List Nat) (tos t : TOSSerialClient)
    (h : DataReceived tos stream = .ok t) :
    ∀ s ∈ (segmentsAux stream tos.packet).1, 2 ≤ (unescape s).length := by
  induction stream generalizing tos with
  | nil => simp [segmentsAux]
  | cons d rest ih =>
    rw [DataReceived_cons] at h
    rw [segmentsAux_cons]
    by_cases hd : d = 0x7E
    · have hd2 : d = HDLC_FLAG_BYTE := hd
      rw [if_pos hd2] at h
      rw [if_pos hd]
      cases hdl : deliver tos with
      | error e => rw [hdl] at h; cases h
      | ok t1 =>
        rw [hdl] at h
        have hlen : 2 ≤ (unescape tos.packet).length := (deliver_ok_iff tos).1 ⟨t1, hdl⟩
        have hrest := ih t1 h
        rw [(deliver_ok_state tos t1 hdl).1] at hrest
        intro s hs
        rcases List.mem_cons.1 hs with hs | hs
        · rw [hs]; exact hlen
        · exact hrest s hs
    · have hd2 : ¬ d = HDLC_FLAG_BYTE := hd
      rw [if_neg hd2] at h
      rw [if_neg hd]
      exact ih _ h

theorem DataReceived_frame (tos : TOSSerialClient) (s : List Nat) (h : 0x7E ∉ s) :
    DataReceived tos (s ++ [0x7E]) = deliver { tos with packet := tos.packet ++ s } := by
  rw [DataReceived_append, DataReceived_plain tos s h]
  exact DataReceived_sentinel _

theorem trailing_marker_does_not_leak (b c : List Nat) (hb : 0x7E ∉ b) (hc : 0x7E ∉ c)
    (hesc : pendingEscape b = false) :
    unescape (b ++ [0x7D]) = unescape b
      ∧ DataReceived NewTOSSerialClient (b ++ [0x7D, 0x7E] ++ c ++ [0x7E])
          = (match deliver ⟨b ++ [0x7D], [], []⟩ with
             | .ok t => deliver { t with packet := c }
             | .error e => .error e) := by
  refine ⟨unescape_trailing_marker b hesc, ?_⟩
  have hsplit : b ++ [0x7D, 0x7E] ++ c ++ [0x7E] = ((b ++ [0x7D]) ++ [0x7E]) ++ (c ++ [0x7E]) := by
    simp
  have hb2 : 0x7E ∉ b ++ [0x7D] := by simp [hb]
  rw [hsplit, DataReceived_append, DataReceived_frame _ _ hb2]
  simp only [NewTOSSerialClient, List.nil_append]
  cases hd : deliver ⟨b ++ [0x7D], [], []⟩ with
  | error e => rfl
  | ok t =>
    simp only []
    rw [DataReceived_frame _ _ hc, (deliver_ok_state _ t hd).1, List.nil_append]

/-! ### The claims, continued -/

/-- C11 fails as stated: in the stream 41 42 43 7D 7E the byte 7E follows an
active escape marker, yet it triggers `deliver`: the frame 41 42 43 is
handled (payload 41 sent, buffer emptied) and no byte 5E enters it. -/
theorem sentinel_after_marker_still_delivers :
    pendingEscape [0x41, 0x42, 0x43] = false
      ∧ DataReceived NewTOSSerialClient [0x41, 0x42, 0x43, 0x7D]
          = .ok ⟨[0x41, 0x42, 0x43, 0x7D], [], []⟩
      ∧ DataReceived NewTOSSerialClient [0x41, 0x42, 0x43, 0x7D, 0x7E]
          = .ok ⟨[], [[0x41]], [⟨0, 0x43, [0x41, 0x42, 0x43]⟩]⟩ := by
  decide

/-- C11 as amended: a byte `b` other than 0x7E that immediately follows an
active escape marker (the buffer before the marker has no pending escape) is
never taken for a new escape marker, whatever its value (0x7D included): it
does not trigger `deliver`, it leaves no escape pending, and it contributes
exactly `b XOR 0x20` to the unescaped frame. A 0x7E that follows the marker
is still a sentinel: it runs `deliver` on the buffer, where the trailing
marker is dropped. -/
theorem escaped_byte_is_data (tos : TOSSerialClient) (b : Nat) (rest : List Nat)
    (hact : pendingEscape tos.packet = false) (hb : b ≠ 0x7E) :
    DataReceived tos [0x7D, b] = .ok { tos with packet := tos.packet ++ [0x7D, b] }
      ∧ pendingEscape (tos.packet ++ [0x7D, b]) = false
      ∧ unescape (tos.packet ++ [0x7D, b] ++ rest)
          = unescape tos.packet ++ [b ^^^ 0x20] ++ unescape rest
      ∧ DataReceived tos [0x7D, 0x7E] = deliver { tos with packet := tos.packet ++ [0x7D] }
      ∧ unescape (tos.packet ++ [0x7D]) = unescape tos.packet := by
  refine ⟨?_, ?_, unescape_escaped_byte _ _ _ hact, ?_, unescape_trailing_marker _ hact⟩
  · exact DataReceived_plain tos [0x7D, b] (by simp [Ne.symm hb])
  · rw [pendingEscape_append _ _ hact]
    simp [pendingEscape, unescapeLoop, HDLC_CTLESC_BYTE]
  · rw [show ([0x7D, 0x7E] : List Nat) = [0x7D] ++ [0x7E] from rfl, DataReceived_append,
      DataReceived_plain tos [0x7D] (by decide)]
    exact DataReceived_sentinel _

/-- Witness of the amended C11: the buffer 41, then the marker followed by
the byte 7D. -/
theorem escaped_byte_is_data_witness :
    pendingEscape (TOSSerialClient.mk [0x41] [] []).packet = false ∧ (0x7D : Nat) ≠ 0x7E
      ∧ DataReceived ⟨[0x41], [], []⟩ [0x7D, 0x7D] = .ok ⟨[0x41] ++ [0x7D, 0x7D], [], []⟩
      ∧ pendingEscape ([0x41] ++ [0x7D, 0x7D]) = false
      ∧ unescape ([0x41] ++ [0x7D, 0x7D] ++ [0x42])
          = unescape [0x41] ++ [0x7D ^^^ 0x20] ++ unescape [0x42]
      ∧ DataReceived ⟨[0x41], [], []⟩ [0x7D, 0x7E] = deliver ⟨[0x41] ++ [0x7D], [], []⟩
      ∧ unescape ([0x41] ++ [0x7D]) = unescape [0x41] :=
  ⟨by decide, by decide,
    escaped_byte_is_data ⟨[0x41], [], []⟩ 0x7D [0x42] (by decide) (by decide)⟩

/-- C12: in every state reached from `NewTOSSerialClient` by a sequence of
`DataReceived` calls, the accumulation buffer holds no 0x7E; and when the
last byte processed was a sentinel, the buffer is empty. -/
theorem buffer_never_holds_sentinel (chunks : List (List Nat)) (tos : TOSSerialClient)
    (h : feedChunks NewTOSSerialClient chunks = .ok tos) :
    0x7E ∉ tos.packet ∧ (chunks.flatten.getLast? = some 0x7E → tos.packet = []) := by
  rw [feedChunks_eq_DataReceived] at h
  refine ⟨DataReceived_keeps_buffer_clean _ _ _ (by simp [NewTOSSerialClient]) h, ?_⟩
  intro hlast
  obtain ⟨ys, hys⟩ := List.getLast?_eq_some_iff.1 hlast
  rw [hys] at h
  exact DataReceived_ends_with_sentinel _ _ _ h

/-- Witness of C12 on the chunks 41 42 and 43 44 7E. -/
theorem buffer_never_holds_sentinel_witness :
    feedChunks NewTOSSerialClient [[0x41, 0x42], [0x43, 0x44, 0x7E]]
        = .ok ⟨[], [[0x41, 0x42]], [⟨0, 0x44, [0x41, 0x42, 0x43, 0x44]⟩]⟩
      ∧ 0x7E ∉ (TOSSerialClient.mk [] [[0x41, 0x42]] [⟨0, 0x44, [0x41, 0x42, 0x43, 0x44]⟩]).packet
      ∧ ((List.flatten [[0x41, 0x42], [0x43, 0x44, 0x7E]]).getLast? = some 0x7E →
          (TOSSerialClient.mk [] [[0x41, 0x42]] [⟨0, 0x44, [0x41, 0x42, 0x43, 0x44]⟩]).packet
            = []) :=
  ⟨by decide, buffer_never_holds_sentinel [[0x41, 0x42], [0x43, 0x44, 0x7E]] _ (by decide)⟩

/-- C13: chunk boundaries do not matter. For every decoder state and all
byte sequences `a` and `b`, calling `DataReceived` on `a` and then on `b`
gives the same result (payloads sent, lines printed, buffer, or the same
panic) as the single call on `a ++ b`; the same holds for every prefix of the
stream, so the two runs agree at every point up to a panic as well. -/
theorem chunk_boundaries_do_not_matter (tos : TOSSerialClient) (a b : List Nat) :
    (DataReceived tos a >>= fun t => DataReceived t b) = DataReceived tos (a ++ b)
      ∧ ∀ k, (DataReceived tos (a.take k) >>= fun t => DataReceived t (b.take (k - a.length)))
          = DataReceived tos ((a ++ b).take k) := by
  have key : ∀ x y : List Nat,
      (DataReceived tos x >>= fun t => DataReceived t y) = DataReceived tos (x ++ y) := by
    intro x y
    rw [DataReceived_append]
    cases DataReceived tos x <;> rfl
  refine ⟨key a b, ?_⟩
  intro k
  rw [key, List.take_append_eq_append_take]

/-- C14, evaluated on the garbage prefix 41 42 43 followed by a sentinel and
by the stream 44 45 46 7E: the decoder sends the payload 41 for the
incomplete leading frame instead of skipping it, before the payload 44 that
a fresh decoder sends for the rest alone. On the stream shape of the
developer notes (garbage, two sentinels, data, sentinel) and on a one-byte
garbage prefix the call ends in the slice-bounds panic. -/
theorem leading_garbage_is_delivered :
    DataReceived NewTOSSerialClient ([0x41, 0x42, 0x43] ++ [0x7E] ++ [0x44, 0x45, 0x46, 0x7E])
        = .ok ⟨[], [[0x41], [0x44]],
            [⟨0, 0x43, [0x41, 0x42, 0x43]⟩, ⟨0, 0x46, [0x44, 0x45, 0x46]⟩]⟩
      ∧ DataReceived NewTOSSerialClient [0x44, 0x45, 0x46, 0x7E]
        = .ok ⟨[], [[0x44]], [⟨0, 0x46, [0x44, 0x45, 0x46]⟩]⟩
      ∧ DataReceived NewTOSSerialClient
          ([0x41, 0x42, 0x43] ++ [0x7E] ++ [0x7E, 0x44, 0x45, 0x46, 0x7E])
        = .error .sliceBounds
      ∧ DataReceived NewTOSSerialClient ([0x41] ++ [0x7E] ++ [0x44, 0x45, 0x46, 0x7E])
        = .error .sliceBounds := by
  decide

/-- C15: stream-order delivery. For every byte stream given to a fresh
decoder in which each sentinel-terminated segment unescapes to at least 3
bytes, `DataReceived` completes, the payloads sent on `Packets` are exactly,
one per sentinel and in stream order, the unescaped segments without their
last two bytes, and the bytes after the last sentinel are what remains in
the accumulation buffer. -/
theorem payloads_in_stream_order (stream : List Nat)
    (h : ∀ s ∈ segments stream, 3 ≤ (unescape s).length) :
    ∃ t, DataReceived NewTOSSerialClient stream = .ok t
      ∧ t.Packets
          = (segments stream).map (fun s => (unescape s).take ((unescape s).length - 2))
      ∧ t.Packets.length = stream.count 0x7E
      ∧ t.packet = remainder stream := by
  obtain ⟨t, hrun, hbuf, hout⟩ := DataReceived_of_segments stream NewTOSSerialClient
    (fun s hs => Nat.le_of_succ_le (h s hs))
  refine ⟨t, hrun, ?_, ?_, hbuf⟩
  · rw [hout]
    simp [NewTOSSerialClient, segments, payloadOf]
  · rw [hout]
    simp only [NewTOSSerialClient, List.nil_append, List.length_map]
    have hcount : ∀ (l cur : List Nat), (segmentsAux l cur).1.length = l.count 0x7E := by
      intro l
      induction l with
      | nil => intro cur; simp [segmentsAux]
      | cons d rest ih =>
        intro cur
        rw [segmentsAux_cons]
        by_cases hd : d = 0x7E
        · rw [if_pos hd, hd, List.count_cons_self, List.length_cons, ih]
        · rw [if_neg hd, ih, List.count_cons_of_ne (Ne.symm hd)]
    exact hcount stream []

/-- Witness of C15 on the stream 41 42 43 7E 7D 5E 44 45 7E 46. -/
theorem payloads_in_stream_order_witness :
    (∀ s ∈ segments [0x41, 0x42, 0x43, 0x7E, 0x7D, 0x5E, 0x44, 0x45, 0x7E, 0x46],
        3 ≤ (unescape s).length)
      ∧ ∃ t, DataReceived NewTOSSerialClient
            [0x41, 0x42, 0x43, 0x7E, 0x7D, 0x5E, 0x44, 0x45, 0x7E, 0x46] = .ok t
          ∧ t.Packets
              = (segments [0x41, 0x42, 0x43, 0x7E, 0x7D, 0x5E, 0x44, 0x45, 0x7E, 0x46]).map
                  (fun s => (unescape s).take ((unescape s).length - 2))
          ∧ t.Packets.length
              = List.count 0x7E [0x41, 0x42, 0x43, 0x7E, 0x7D, 0x5E, 0x44, 0x45, 0x7E, 0x46]
          ∧ t.packet = remainder [0x41, 0x42, 0x43, 0x7E, 0x7D, 0x5E, 0x44, 0x45, 0x7E, 0x46] :=
  ⟨by decide,
    payloads_in_stream_order [0x41, 0x42, 0x43, 0x7E, 0x7D, 0x5E, 0x44, 0x45, 0x7E, 0x46]
      (by decide)⟩

/-- C16, evaluated on the empty buffer followed by 7D 7E and by the frame
41 42 43 with its sentinel: the trailing marker is dropped by `unescape`, but
the first sentinel makes `deliver` panic on the empty frame, so the frame
that follows is never handled. After the two-byte buffer 41 42 the same
continuation is handled as the frame 41 42 43, its first byte unchanged. -/
theorem trailing_marker_then_short_frame_panics :
    pendingEscape [] = false
      ∧ unescape ([] ++ [0x7D]) = unescape []
      ∧ DataReceived NewTOSSerialClient ([] ++ [0x7D, 0x7E] ++ [0x41, 0x42, 0x43] ++ [0x7E])
          = .error .sliceBounds
      ∧ DataReceived NewTOSSerialClient
            ([0x41, 0x42] ++ [0x7D, 0x7E] ++ [0x41, 0x42, 0x43] ++ [0x7E])
          = .ok ⟨[], [[], [0x41]],
              [⟨0, 0x42, [0x41, 0x42]⟩, ⟨0, 0x43, [0x41, 0x42, 0x43]⟩]⟩ := by
  decide

/-- C17: exact fault condition. For every decoder state the two slicings of
`deliver` are in range, and `deliver` completes, if and only if the
unescaped buffer has at least 2 bytes; and `DataReceived` on a stream given
to a fresh decoder completes if and only if every sentinel-terminated
segment of the stream unescapes to at least 2 bytes. -/
theorem fault_condition :
    (∀ tos : TOSSerialClient,
        ((∃ p q, sliceTo (unescape tos.packet) (((unescape tos.packet).length : Int) - 2) = .ok p
            ∧ sliceFrom (unescape tos.packet) (((unescape tos.packet).length : Int) - 2) = .ok q)
          ↔ 2 ≤ (unescape tos.packet).length)
        ∧ ((∃ t, deliver tos = .ok t) ↔ 2 ≤ (unescape tos.packet).length))
      ∧ ∀ stream : List Nat,
          (∃ t, DataReceived NewTOSSerialClient stream = .ok t)
            ↔ ∀ s ∈ segments stream, 2 ≤ (unescape s).length := by
  refine ⟨fun tos => ⟨?_, deliver_ok_iff tos⟩, fun stream => ⟨?_, ?_⟩⟩
  · constructor
    · rintro ⟨p, q, hp, _⟩
      by_contra hlt
      have h2 : ¬ (0 ≤ ((unescape tos.packet).length : Int) - 2
          ∧ ((unescape tos.packet).length : Int) - 2 ≤ ((unescape tos.packet).length : Int)) := by
        omega
      simp only [sliceTo, if_neg h2] at hp
      cases hp
    · intro h
      have h2 : 0 ≤ ((unescape tos.packet).length : Int) - 2
          ∧ ((unescape tos.packet).length : Int) - 2 ≤ ((unescape tos.packet).length : Int) := by
        omega
      exact ⟨_, _, by rw [sliceTo, if_pos h2], by rw [sliceFrom, if_pos h2]⟩
  · rintro ⟨t, ht⟩
    exact segments_of_DataReceived stream NewTOSSerialClient t ht
  · intro h
    obtain ⟨t, ht, _⟩ := DataReceived_of_segments stream NewTOSSerialClient h
    exact ⟨t, ht⟩

/-! ### Lemmas on `crc16` -/

theorem crcByte_ignores_byte (crc b : Nat) : crcByte crc b = crcRound^[8] crc := by
  have hz : (b <<< 8) % 2 ^ 8 = 0 := by
    rw [Nat.shiftLeft_eq, Nat.mul_mod_left]
  rw [crcByte, hz, Nat.xor_zero]

theorem crc16_by_length (base : Nat) (d : List Nat) :
    crc16 base d = (crcRound^[8])^[d.length] base := by
  induction d generalizing base with
  | nil => rfl
  | cons b rest ih =>
    have hstep : crc16 base (b :: rest) = crc16 (crcByte base b) rest := rfl
    rw [hstep, ih, crcByte_ignores_byte, List.length_cons]
    exact (Function.iterate_succ_apply (crcRound^[8]) rest.length base).symm

theorem crc16_zero (d : List Nat) : crc16 0 d = 0 := by
  rw [crc16_by_length]
  have hfix : crcRound^[8] 0 = 0 := by decide
  exact Function.iterate_fixed hfix _

theorem unescapeLoop_bytes (s ret : List Nat) (esc : Bool)
    (hs : ∀ x ∈ s, x < 256) (hret : ∀ x ∈ ret, x < 256) :
    ∀ x ∈ (unescapeLoop s ret esc).1, x < 256 := by
  induction s generalizing ret esc with
  | nil => simpa [unescapeLoop] using hret
  | cons b rest ih =>
    have hb : b < 256 := hs b (List.mem_cons_self _ _)
    have hrest : ∀ x ∈ rest, x < 256 := fun x hx => hs x (List.mem_cons_of_mem _ hx)
    have hxor : b ^^^ 0x20 < 256 :=
      Nat.xor_lt_two_pow (show b < 2 ^ 8 from hb) (show 0x20 < 2 ^ 8 by decide)
    rw [unescapeLoop_cons]
    split
    · refine ih _ _ hrest ?_
      intro x hx
      rcases List.mem_append.1 hx with hx | hx
      · exact hret x hx
      · rw [List.mem_singleton.1 hx]; exact hxor
    · split
      · exact ih _ _ hrest hret
      · refine ih _ _ hrest ?_
        intro x hx
        rcases List.mem_append.1 hx with hx | hx
        · exact hret x hx
        · rw [List.mem_singleton.1 hx]; exact hb

theorem unescape_bytes (s : List Nat) (hs : ∀ x ∈ s, x < 256) :
    ∀ x ∈ unescape s, x < 256 :=
  unescapeLoop_bytes s [] false hs (by simp)

/-- C18: the checksum computed by `crc16` does not depend on the data bytes.
For all sequences `d1` and `d2` of equal length and every base,
`crc16 base d1 = crc16 base d2`, and `crc16 0 d = 0` for every `d`; so for a
buffer of bytes whose unescaped form has at least 2 bytes, with trailer
`[a, b]`, the comparison `crc != packet_crc` of `deliver` holds exactly when
`b` is not zero, and `deliver` prints its line exactly then. -/
theorem crc16_ignores_data (base : Nat) (d1 d2 : List Nat) (tos : TOSSerialClient)
    (hlen : d1.length = d2.length) (hbytes : ∀ x ∈ tos.packet, x < 256)
    (hframe : 2 ≤ (unescape tos.packet).length) :
    crc16 base d1 = crc16 base d2
      ∧ (∀ d, crc16 0 d = 0)
      ∧ ∃ a b, (unescape tos.packet).drop ((unescape tos.packet).length - 2) = [a, b]
          ∧ decode [a, b] = .ok b
          ∧ (crc16 0 ((unescape tos.packet).take ((unescape tos.packet).length - 2)) ≠ b
              ↔ b ≠ 0)
          ∧ deliver tos = .ok
              { packet := []
                Packets := tos.Packets
                  ++ [(unescape tos.packet).take ((unescape tos.packet).length - 2)]
                printed := tos.printed
                  ++ (if b = 0 then [] else [⟨0, b, unescape tos.packet⟩]) } := by
  refine ⟨by rw [crc16_by_length, crc16_by_length, hlen], crc16_zero, ?_⟩
  obtain ⟨a, b, hab⟩ := drop_len_sub_two _ hframe
  have hbmem : b ∈ unescape tos.packet :=
    List.mem_of_mem_drop (by rw [hab]; simp)
  have hb : b < 256 := unescape_bytes _ hbytes b hbmem
  have hmod : b % 2 ^ 32 = b := Nat.mod_eq_of_lt (by omega)
  have hdec : decode [a, b] = .ok b := by rw [decode_pair, hmod]
  obtain ⟨pc, hpc, hd⟩ := deliver_long tos hframe
  rw [hab, hdec] at hpc
  cases hpc
  refine ⟨a, b, hab, hdec, ?_, ?_⟩
  · rw [crc16_zero]
    exact ⟨fun h => Ne.symm h, fun h => Ne.symm h⟩
  · rw [hd, crc16_zero]
    by_cases hz : b = 0
    · simp [hz]
    · simp [hz, Ne.symm hz]

/-- Witness of C18 on the data 41 42 and 43 44 with base 0x1234 and on the
buffer 41 42 C3 4B. -/
theorem crc16_ignores_data_witness :
    [0x41, 0x42].length = [0x43, 0x44].length
      ∧ (∀ x ∈ (TOSSerialClient.mk [0x41, 0x42, 0xC3, 0x4B] [] []).packet, x < 256)
      ∧ 2 ≤ (unescape (TOSSerialClient.mk [0x41, 0x42, 0xC3, 0x4B] [] []).packet).length
      ∧ crc16 0x1234 [0x41, 0x42] = crc16 0x1234 [0x43, 0x44]
      ∧ (∀ d, crc16 0 d = 0)
      ∧ ∃ a b, (unescape [0x41, 0x42, 0xC3, 0x4B]).drop
              ((unescape [0x41, 0x42, 0xC3, 0x4B]).length - 2) = [a, b]
          ∧ decode [a, b] = .ok b
          ∧ (crc16 0 ((unescape [0x41, 0x42, 0xC3, 0x4B]).take
                ((unescape [0x41, 0x42, 0xC3, 0x4B]).length - 2)) ≠ b ↔ b ≠ 0)
          ∧ deliver ⟨[0x41, 0x42, 0xC3, 0x4B], [], []⟩ = .ok
              { packet := []
                Packets := [] ++ [(unescape [0x41, 0x42, 0xC3, 0x4B]).take
                  ((unescape [0x41, 0x42, 0xC3, 0x4B]).length - 2)]
                printed := [] ++ (if b = 0 then []
                  else [⟨0, b, unescape [0x41, 0x42, 0xC3, 0x4B]⟩]) } :=
  ⟨by decide, by decide, by decide,
    crc16_ignores_data 0x1234 [0x41, 0x42] [0x43, 0x44] ⟨[0x41, 0x42, 0xC3, 0x4B], [], []⟩
      (by decide) (by decide) (by decide)⟩

end TOSSerial
